import Mathlib

/-!
Shallow embedding of the vendor-statement review engine (`src/reviewer.py`).

Modelling conventions:
* Python `datetime` values are naive timestamps, embedded as `ℤ` = seconds
  since the epoch 1970-01-01 00:00:00.  Calendar conversions use the standard
  civil-calendar algorithms (`daysFromCivil`, `civilFromDays`).
* Python floats are embedded as exact rationals `ℚ`.  Because Mathlib's
  `Rat.add`/`Rat.sub` are `@[irreducible]`, the embedding performs addition
  and subtraction through the kernel-reducible wrappers `addQ`/`subQ`, which
  are proved equal to `+`/`-` (`addQ_eq`, `subQ_eq`), so concrete runs can be
  evaluated by `decide`.
* Python strings are Lean `String`s; parsing works on `String.data`
  (`List Char`).
* Flag strings produced with f-strings are embedded as the inductive `Flag`
  whose constructors carry exactly the data interpolated into the f-string
  (the rendering is injective, so list equality and text de-duplication
  coincide with the Python string versions).
-/

namespace Reviewer

/-- Kernel-reducible exact rational addition (same value as `a + b`). -/
def addQ (a b : ℚ) : ℚ := mkRat (a.num * b.den + b.num * a.den) (a.den * b.den)

/-- Kernel-reducible exact rational subtraction (same value as `a - b`). -/
def subQ (a b : ℚ) : ℚ := addQ a (-b)

/-- Kernel-reducible power of ten in `ℤ`. -/
def pow10Z : ℕ → ℤ
  | 0 => 1
  | n + 1 => 10 * pow10Z n

/-- Gregorian leap-year test, as in Python's `datetime` module. -/
def isLeap (y : ℤ) : Bool := decide ((y % 4 = 0 ∧ y % 100 ≠ 0) ∨ y % 400 = 0)

/-- Number of days in a month of the proleptic Gregorian calendar. -/
def daysInMonth (y m : ℤ) : ℤ :=
  if m = 2 then (if isLeap y then 29 else 28)
  else if m = 4 ∨ m = 6 ∨ m = 9 ∨ m = 11 then 30
  else 31

/-- Day number (days since 1970-01-01) of a Gregorian date, by the standard
civil-from-date algorithm. -/
def daysFromCivil (y m d : ℤ) : ℤ :=
  let y2 := if m ≤ 2 then y - 1 else y
  let era := Int.fdiv y2 400
  let yoe := y2 - era * 400
  let mp := if 2 < m then m - 3 else m + 9
  let doy := Int.fdiv (153 * mp + 2) 5 + d - 1
  let doe := yoe * 365 + Int.fdiv yoe 4 - Int.fdiv yoe 100 + doy
  era * 146097 + doe - 719468

/-- Gregorian `(year, month, day)` of a day number, by the standard
date-from-civil algorithm. -/
def civilFromDays (z0 : ℤ) : ℤ × ℤ × ℤ :=
  let z := z0 + 719468
  let era := Int.fdiv z 146097
  let doe := z - era * 146097
  let yoe := Int.fdiv (doe - Int.fdiv doe 1460 + Int.fdiv doe 36524 - Int.fdiv doe 146096) 365
  let y := yoe + era * 400
  let doy := doe - (365 * yoe + Int.fdiv yoe 4 - Int.fdiv yoe 100)
  let mp := Int.fdiv (5 * doy + 2) 153
  let d := doy - Int.fdiv (153 * mp + 2) 5 + 1
  let m := if mp < 10 then mp + 3 else mp - 9
  (if m ≤ 2 then y + 1 else y, m, d)

/-- Month index `year*12 + month` of a timestamp, as computed from
`date.year * 12 + date.month` in `break_in_monthly_pattern`. -/
def monthIdxOfDate (t : ℤ) : ℤ :=
  let c := civilFromDays (Int.fdiv t 86400)
  c.1 * 12 + c.2.1

/-- Value of a decimal digit character. -/
def digitVal (c : Char) : ℕ := c.toNat - 48

/-- Reads a block of decimal digit characters into a natural number. -/
def readDigits : List Char → ℕ → ℕ
  | [], acc => acc
  | c :: r, acc => readDigits r (acc * 10 + digitVal c)

/-- Python `str.strip()`: drop whitespace from both ends. -/
def pyStrip (cs : List Char) : List Char :=
  ((cs.dropWhile Char.isWhitespace).reverse.dropWhile Char.isWhitespace).reverse

/-- Python `str.replace(c, "")` for a single character. -/
def removeChar (c : Char) (cs : List Char) : List Char := cs.filter (fun x => x ≠ c)

/-- Model of Python `float(s)` for finite decimal literals: optional sign,
integer digits, optional fractional digits, optional decimal exponent.
(The model does not cover `inf`/`nan` or digit-group underscores, which the
upstream data never contains.)  Returns the exact rational value. -/
def pyFloatCore (cs : List Char) : Option ℚ :=
  let sgnRest : ℤ × List Char :=
    match cs with
    | '+' :: r => (1, r)
    | '-' :: r => (-1, r)
    | r => (1, r)
  let sgn := sgnRest.1
  let cs1 := sgnRest.2
  let intd := cs1.takeWhile Char.isDigit
  let rest1 := cs1.dropWhile Char.isDigit
  let fracRest : List Char × List Char :=
    match rest1 with
    | '.' :: r => (r.takeWhile Char.isDigit, r.dropWhile Char.isDigit)
    | r => ([], r)
  let fracd := fracRest.1
  let rest2 := fracRest.2
  if intd.isEmpty && fracd.isEmpty then Option.none
  else
    let n : ℤ := sgn * (readDigits intd 0 * 10 ^ fracd.length + readDigits fracd 0)
    let scale := fracd.length
    match rest2 with
    | [] => some (mkRat n (10 ^ scale))
    | e :: r =>
      if e = 'e' ∨ e = 'E' then
        let esgnRest : Bool × List Char :=
          match r with
          | '+' :: rr => (false, rr)
          | '-' :: rr => (true, rr)
          | rr => (false, rr)
        let ed := esgnRest.2.takeWhile Char.isDigit
        let r2 := esgnRest.2.dropWhile Char.isDigit
        if ed.isEmpty || !r2.isEmpty then Option.none
        else
          let ex := readDigits ed 0
          if esgnRest.1 then some (mkRat n (10 ^ (scale + ex)))
          else some (mkRat (n * pow10Z ex) (10 ^ scale))
      else Option.none

/-- A loosely-typed Python value as it appears in a transaction-record field:
`None`, a native number (int or float, embedded as `ℚ`), or a string. -/
inductive PyVal where
  | none
  | num (q : ℚ)
  | str (s : String)
deriving DecidableEq

/-- Python truthiness for the values of `PyVal`. -/
def pyTruthy : PyVal → Bool
  | PyVal.none => false
  | PyVal.num q => q ≠ 0
  | PyVal.str s => s ≠ ""

/-- The non-breaking-space character stripped by `_to_amount`. -/
def nbspChar : Char := '\u00A0'

/-- The cleaned character list `_to_amount` works on: `str(raw).strip()` with
non-breaking spaces and spaces removed. -/
def cleanedAmt (s0 : String) : List Char :=
  removeChar ' ' (removeChar nbspChar (pyStrip s0.data))

/-- Embedding of `_to_amount` (`reviewer.py` lines 8-45): parse numbers that
may come as int/float or as localized strings; thousands separators and
decimal commas are handled; every failure falls back to `0.0`. -/
def _to_amount (raw : PyVal) : ℚ :=
  match raw with
  | PyVal.none => 0
  | PyVal.num q => q
  | PyVal.str s0 =>
    let s := cleanedAmt s0
    match pyFloatCore s with
    | some q => q
    | Option.none =>
      let eu : Option ℚ :=
        if s.contains ',' then
          pyFloatCore ((removeChar '.' s).map (fun x => if x = ',' then '.' else x))
        else Option.none
      match eu with
      | some q => q
      | Option.none =>
        match pyFloatCore (removeChar '.' (removeChar ',' s)) with
        | some q => q
        | Option.none => 0

/-- Validated Gregorian date from eight digit characters `YYYY-MM-DD`;
returns the day number.  Mirrors the validation done by
`datetime.fromisoformat` (year ≥ 1, month 1-12, day within month). -/
def dateFromChars (y1 y2 y3 y4 m1 m2 d1 d2 : Char) : Option ℤ :=
  if y1.isDigit && y2.isDigit && y3.isDigit && y4.isDigit && m1.isDigit && m2.isDigit
      && d1.isDigit && d2.isDigit then
    let y : ℤ := readDigits [y1, y2, y3, y4] 0
    let m : ℤ := readDigits [m1, m2] 0
    let d : ℤ := readDigits [d1, d2] 0
    if 1 ≤ y ∧ 1 ≤ m ∧ m ≤ 12 ∧ 1 ≤ d ∧ d ≤ daysInMonth y m then some (daysFromCivil y m d)
    else Option.none
  else Option.none

/-- Validity of a trailing UTC-offset suffix `±HH:MM` (empty means no offset).
The offset value is validated and discarded, mirroring
`datetime.replace(tzinfo=None)`. -/
def offsetOk : List Char → Bool
  | [] => true
  | sgn :: o1 :: o2 :: ':' :: o3 :: o4 :: [] =>
    (sgn = '+' || sgn = '-') && o1.isDigit && o2.isDigit && o3.isDigit && o4.isDigit
      && decide ((readDigits [o1, o2] 0 : ℤ) ≤ 23) && decide ((readDigits [o3, o4] 0 : ℤ) ≤ 59)
  | _ => false

/-- Seconds within the day denoted by a time-of-day suffix `HH:MM[:SS]`
optionally followed by a UTC offset. -/
def timeSecs : List Char → Option ℤ
  | h1 :: h2 :: ':' :: mi1 :: mi2 :: rest =>
    if h1.isDigit && h2.isDigit && mi1.isDigit && mi2.isDigit
        && decide ((readDigits [h1, h2] 0 : ℤ) ≤ 23)
        && decide ((readDigits [mi1, mi2] 0 : ℤ) ≤ 59) then
      let base : ℤ := (readDigits [h1, h2] 0 : ℤ) * 3600 + (readDigits [mi1, mi2] 0 : ℤ) * 60
      match rest with
      | ':' :: s1 :: s2 :: rest2 =>
        if s1.isDigit && s2.isDigit && decide ((readDigits [s1, s2] 0 : ℤ) ≤ 59)
            && offsetOk rest2 then
          some (base + (readDigits [s1, s2] 0 : ℤ))
        else Option.none
      | rest2 => if offsetOk rest2 then some base else Option.none
    else Option.none
  | _ => Option.none

/-- Model of `datetime.fromisoformat` for the shapes this program feeds it:
`YYYY-MM-DD` optionally followed by `THH:MM[:SS]` and a `±HH:MM` offset.
The result is the naive timestamp in seconds (any offset is validated and
then dropped, as the caller immediately does `replace(tzinfo=None)`). -/
def fromisoformat (cs : List Char) : Option ℤ :=
  match cs with
  | y1 :: y2 :: y3 :: y4 :: '-' :: m1 :: m2 :: '-' :: d1 :: d2 :: rest =>
    match dateFromChars y1 y2 y3 y4 m1 m2 d1 d2 with
    | some day =>
      match rest with
      | [] => some (day * 86400)
      | 'T' :: trest => (timeSecs trest).map (fun s => day * 86400 + s)
      | _ => Option.none
    | Option.none => Option.none
  | _ => Option.none

/-- Python `str.replace("Z", "+00:00")` (replaces every occurrence). -/
def replaceZ (cs : List Char) : List Char :=
  cs.flatMap (fun c => if c = 'Z' then ['+', '0', '0', ':', '0', '0'] else [c])

/-- Embedding of `_parse_date` (`reviewer.py` lines 50-59): `None`/empty input
and every parse failure yield `none`; a string containing a time component has
its UTC marker rewritten and is parsed as a date-time whose zone is dropped
(the time-of-day is kept); otherwise the string is parsed as a plain date. -/
def _parse_date : Option String → Option ℤ
  | Option.none => Option.none
  | some s =>
    if s = "" then Option.none
    else if s.data.contains 'T' then fromisoformat (replaceZ s.data)
    else fromisoformat s.data

/-- Model of `datetime.strptime(s, "%Y-%m-%d")` (zero-padded form), as used by
`review_vendor` for the report date; `none` models the raised `ValueError`. -/
def strptimeYmd (s : String) : Option ℤ :=
  match s.data with
  | [y1, y2, y3, y4, '-', m1, m2, '-', d1, d2] =>
    (dateFromChars y1 y2 y3 y4 m1 m2 d1 d2).map (fun day => day * 86400)
  | _ => Option.none

/-- A normalized timeline entry `{date, description, amount}` as built by
`build_timeline` after entries without a parseable date are dropped. -/
structure Entry where
  date : ℤ
  description : String
  amount : ℚ
deriving DecidableEq

/-- A raw transaction record (Python dict): only the fields the code reads.
`Option.none` on a string field models both an absent key and a `None` value
(`dict.get` returns `None` for both); on the amount-like fields, `PyVal.none`
plays that role. -/
structure RawRec where
  date : Option String := Option.none
  voucherDate : Option String := Option.none
  description : Option String := Option.none
  text : Option String := Option.none
  balance : PyVal := PyVal.none
  amount : PyVal := PyVal.none
deriving DecidableEq

/-- Python truthiness of an optional string (`None` and `""` are falsy). -/
def strTruthy : Option String → Bool
  | Option.none => false
  | some s => s ≠ ""

/-- Field resolution `ln.get("date") or ln.get("voucherDate")`. -/
def resolvedDate (ln : RawRec) : Option String :=
  if strTruthy ln.date then ln.date else ln.voucherDate

/-- Field resolution `(ln.get("description") or ln.get("text") or "").strip()`. -/
def resolvedDesc (ln : RawRec) : String :=
  let raw := if strTruthy ln.description then ln.description.getD ""
    else if strTruthy ln.text then ln.text.getD "" else ""
  String.mk (pyStrip raw.data)

/-- Field resolution
`ln.get("balance") if ln.get("balance") is not None else ln.get("amount") or 0`. -/
def resolvedRawAmt (ln : RawRec) : PyVal :=
  if ln.balance ≠ PyVal.none then ln.balance
  else if pyTruthy ln.amount then ln.amount else PyVal.num 0

/-- One record of `build_timeline`'s intermediate list, before entries with
an unparseable date are filtered out. -/
structure PreEntry where
  pdate : Option ℤ
  pdesc : String
  pamount : ℚ
deriving DecidableEq

/-- The dict `{"date": _parse_date(d), "description": desc, "amount": amt}`
appended for one raw record in `build_timeline`'s loop. -/
def normEntry (ln : RawRec) : PreEntry :=
  { pdate := _parse_date (resolvedDate ln)
    pdesc := resolvedDesc ln
    pamount := _to_amount (resolvedRawAmt ln) }

/-- The normalized records that survive the
`[x for x in out if x["date"] is not None]` filter, in input order. -/
def normalizedKept (lines : List RawRec) : List Entry :=
  (lines.map normEntry).filterMap
    (fun e => e.pdate.map (fun d => Entry.mk d e.pdesc e.pamount))

/-- Embedding of `build_timeline` (`reviewer.py` lines 61-72): normalize each
record, drop unparseable dates, and stable-sort ascending by date (Python's
`list.sort(key=...)` is stable; insertion sort on the date key computes the
same list). -/
def build_timeline (lines : List RawRec) : List Entry :=
  List.insertionSort (fun a b => a.date ≤ b.date) (normalizedKept lines)

instance : IsTotal Entry (fun a b => a.date ≤ b.date) :=
  ⟨fun a b => le_total a.date b.date⟩

instance : IsTrans Entry (fun a b => a.date ≤ b.date) :=
  ⟨fun _ _ _ h1 h2 => le_trans h1 h2⟩

/-- The sublist of timeline entries with `date <= report_dt`, the filter
every rule applies first. -/
def filterLE (tl : List Entry) (rd : ℤ) : List Entry :=
  tl.filter (fun t => decide (t.date ≤ rd))

/-- Embedding of `ending_balance` (`reviewer.py` lines 75-76):
`sum(x["amount"] for x in timeline if x["date"] <= report_dt)`. -/
def ending_balance (tl : List Entry) (rd : ℤ) : ℚ :=
  ((filterLE tl rd).map Entry.amount).foldl addQ 0

/-- The flag strings of `reviewer.py`, embedded as structured data carrying
exactly the values interpolated into each f-string (rendering is injective,
so equality of `Flag`s coincides with equality of the Python strings). -/
inductive Flag where
  | unpaid (invDay : ℤ)
  | debit
  | creditNoMatch
  | dup (amtRounded : ℤ) (days : ℤ) (day1 day2 : ℤ)
  | patternBreak
  | inactive
deriving DecidableEq

/-- The inner `while pay > 0 and i < len(open_invoices)` loop of
`unpaid_invoice_over_50d`: consume a payment against open invoices in FIFO
order; an invoice whose remaining amount falls to at most `1.0` is removed. -/
def consume (pay : ℚ) : List (ℤ × ℚ) → List (ℤ × ℚ)
  | [] => []
  | (d, amt) :: rest =>
    if pay ≤ 0 then (d, amt) :: rest
    else
      let tk := min pay amt
      let amt2 := subQ amt tk
      let pay2 := subQ pay tk
      if amt2 ≤ 1 then consume pay2 rest
      else (d, amt2) :: consume pay2 rest

/-- The `open_invoices` ledger left after the FIFO-matching scan of
`unpaid_invoice_over_50d` over the given (already date-filtered) entries. -/
def openLedger (txs : List Entry) : List (ℤ × ℚ) :=
  txs.foldl
    (fun led tx =>
      if 0 < tx.amount then led ++ [(tx.date, tx.amount)]
      else if tx.amount < 0 then consume (-tx.amount) led
      else led) []

/-- Embedding of `unpaid_invoice_over_50d` (`reviewer.py` lines 78-106). -/
def unpaid_invoice_over_50d (tl : List Entry) (rd : ℤ) : List Flag :=
  let cutoff := rd - 50 * 86400
  ((openLedger (filterLE tl rd)).filter
      (fun p => decide (p.1 ≤ cutoff) && decide (1 < p.2))).map
    (fun p => Flag.unpaid (Int.fdiv p.1 86400))

/-- The inner `while` loop of `credit_balance_mismatch` (amounts only). -/
def consumeAmts (pay : ℚ) : List ℚ → List ℚ
  | [] => []
  | amt :: rest =>
    if pay ≤ 0 then amt :: rest
    else
      let tk := min pay amt
      let amt2 := subQ amt tk
      let pay2 := subQ pay tk
      if amt2 ≤ 1 then consumeAmts pay2 rest
      else amt2 :: consumeAmts pay2 rest

/-- The `open_amts` list left by `credit_balance_mismatch`'s matching pass. -/
def openAmts (txs : List Entry) : List ℚ :=
  txs.foldl
    (fun led tx =>
      if 0 < tx.amount then led ++ [tx.amount]
      else if tx.amount < 0 then consumeAmts (-tx.amount) led
      else led) []

/-- Embedding of `credit_balance_mismatch` (`reviewer.py` lines 108-134):
`False` unless the ending balance is a credit below `-1.0`; otherwise `True`
iff no single open invoice matches the credit within `1.0`. -/
def credit_balance_mismatch (tl : List Entry) (rd : ℤ) : Bool :=
  let bal := ending_balance tl rd
  if -1 ≤ bal then false
  else
    let credit := -bal
    !((openAmts (filterLE tl rd)).any (fun a => decide (|subQ a credit| ≤ 1)))

/-- Round half to even, as Python's `"{:,.0f}".format` renders a float
amount with no decimals. -/
def rndHalfEven (q : ℚ) : ℤ :=
  let f := q.num.fdiv q.den
  let r := subQ q f
  if r < mkRat 1 2 then f
  else if mkRat 1 2 < r then f + 1
  else if f % 2 = 0 then f else f + 1

/-- The flag (if any) emitted by `duplicate_payments` for one ordered pair of
payments `(pays[i], pays[j])` with `i < j`: magnitudes within `1.0` and a
day gap (Python `timedelta.days`, i.e. floor of the time difference) of 1-2.
The flag carries the rendered amount `{abs(pays[i]):,.0f}`, the day gap and
both calendar dates. -/
def dupFlagOf (p q : Entry) : Option Flag :=
  if |subQ p.amount q.amount| ≤ 1 then
    let days := |Int.fdiv (p.date - q.date) 86400|
    if 1 ≤ days ∧ days ≤ 2 then
      some (Flag.dup (rndHalfEven |p.amount|) days (Int.fdiv p.date 86400)
        (Int.fdiv q.date 86400))
    else Option.none
  else Option.none

/-- The flags appended by the double loop `for i ... for j in range(i+1, ...)`
of `duplicate_payments`, in emission order. -/
def pairFlags : List Entry → List Flag
  | [] => []
  | p :: rest => rest.filterMap (dupFlagOf p) ++ pairFlags rest

/-- Python `list(dict.fromkeys(flags))`: drop duplicates, keeping the first
occurrence of each element (structural recursion on a seen-set so concrete
runs kernel-reduce). -/
def firstDedupAux {α : Type} [DecidableEq α] (seen : List α) : List α → List α
  | [] => []
  | a :: rest =>
    if a ∈ seen then firstDedupAux seen rest
    else a :: firstDedupAux (a :: seen) rest

/-- Python `list(dict.fromkeys(flags))` with no elements seen yet. -/
def firstDedup {α : Type} [DecidableEq α] (l : List α) : List α := firstDedupAux [] l

/-- Embedding of `duplicate_payments` (`reviewer.py` lines 136-147). -/
def duplicate_payments (tl : List Entry) (rd : ℤ) : List Flag :=
  firstDedup (pairFlags (tl.filter (fun t => decide (t.date ≤ rd) && decide (t.amount < 0))))

/-- The `sorted({(t.year, t.month) ...})` list of `break_in_monthly_pattern`,
represented by the strictly increasing list of month indices `year*12+month`
(the index is injective and order-preserving on calendar `(year, month)`
pairs, whose months lie in `1..12`). -/
def sortedMonths (tl : List Entry) (rd : ℤ) : List ℤ :=
  List.insertionSort (fun a b => a ≤ b)
    (((filterLE tl rd).map (fun t => monthIdxOfDate t.date)).dedup)

/-- The scan loop of `break_in_monthly_pattern` over the sorted distinct
months: `prev` is the last month seen, `runLen` the length of the current
consecutive run; at each break (and at the end) a run of length at least 3
ending at least one month before the report month returns `true`. -/
def scanRunsB (repIdx : ℤ) : ℤ → ℕ → List ℤ → Bool
  | prev, runLen, [] => decide (3 ≤ runLen ∧ 1 ≤ repIdx - prev)
  | prev, runLen, m :: rest =>
    if m - prev = 1 then scanRunsB repIdx m (runLen + 1) rest
    else if 3 ≤ runLen ∧ 1 ≤ repIdx - prev then true
    else scanRunsB repIdx m 1 rest

/-- Embedding of `break_in_monthly_pattern` (`reviewer.py` lines 149-176). -/
def break_in_monthly_pattern (tl : List Entry) (rd : ℤ) : Bool :=
  let months := sortedMonths tl rd
  if months.length < 4 then false
  else
    match months with
    | [] => false
    | m0 :: rest => scanRunsB (monthIdxOfDate rd) m0 1 rest

/-- Embedding of `inactive_with_balance` (`reviewer.py` lines 178-185). -/
def inactive_with_balance (tl : List Entry) (rd : ℤ) : Bool :=
  if (filterLE tl rd).length ≤ 2 then
    match ((filterLE tl rd).map Entry.date).max? with
    | Option.none => false
    | some lastDt =>
      decide (50 ≤ Int.fdiv (rd - lastDt) 86400 ∧ 1 < |ending_balance tl rd|)
  else false

/-- The result record of `review_vendor`. -/
structure ReviewResult where
  balance : ℚ
  red : List Flag
  orange : List Flag
  timeline : List Entry
deriving DecidableEq

/-- Embedding of `review_vendor` (`reviewer.py` lines 187-214).  `none`
models the `ValueError` that `strptime` raises on a bad report-date string. -/
def review_vendor (lines : List RawRec) (reportDateStr : String) : Option ReviewResult :=
  (strptimeYmd reportDateStr).map (fun rd =>
    let tl := build_timeline lines
    let red := unpaid_invoice_over_50d tl rd
      ++ (if 1 < ending_balance tl rd then [Flag.debit] else [])
      ++ (if credit_balance_mismatch tl rd then [Flag.creditNoMatch] else [])
      ++ duplicate_payments tl rd
    let orange := (if break_in_monthly_pattern tl rd then [Flag.patternBreak] else [])
      ++ (if inactive_with_balance tl rd then [Flag.inactive] else [])
    { balance := ending_balance tl rd, red := red, orange := orange, timeline := tl })

/-! ### Definitions written from the specification's words, for refinement
claims.  Each is compared with the corresponding definition translated from
the source. -/

/-- Spec wording (Invoice Matcher): "A negative amount is treated as a
payment of magnitude `|amount|` consumed against open ledger entries strictly
in FIFO order (oldest invoice first): reduce each open entry's remaining
amount by the available payment until either the payment is exhausted or the
entry's remaining amount falls to ≤1.0 (removed from the ledger as
settled)." -/
def specSettle (pay : ℚ) : List (ℤ × ℚ) → List (ℤ × ℚ)
  | [] => []
  | (d, amt) :: rest =>
    if 0 < pay then
      let avail := min pay amt
      let remaining := subQ amt avail
      if remaining ≤ 1 then specSettle (subQ pay avail) rest
      else (d, remaining) :: specSettle (subQ pay avail) rest
    else (d, amt) :: rest

/-- Spec wording (Invoice Matcher): "process entries in chronological order;
a positive amount opens a new ledger entry; a negative amount is consumed per
`specSettle`; the result is whatever remains in the ledger after the scan". -/
def specMatcher (txs : List Entry) : List (ℤ × ℚ) :=
  txs.foldl
    (fun ledger tx =>
      if 0 < tx.amount then ledger ++ [(tx.date, tx.amount)]
      else if tx.amount < 0 then specSettle (-tx.amount) ledger
      else ledger) []

/-- Spec wording (unpaid-invoice aging rule): "run Invoice Matcher; for every
open ledger entry whose invoice date is at or before `reportDate − 50 days`
and whose remaining amount exceeds 1.0, emit a flag naming the invoice
date." -/
def specAgingFlags (tl : List Entry) (rd : ℤ) : List Flag :=
  ((specMatcher (filterLE tl rd)).filter
      (fun p => decide (p.1 ≤ rd - 50 * 86400) && decide (1 < p.2))).map
    (fun p => Flag.unpaid (Int.fdiv p.1 86400))

/-- Claim C5's wording for one pair: magnitudes differing by at most 1.0 and
a calendar-day gap (difference of the two calendar dates) of 1 or 2. -/
def claimDupFlagOf (p q : Entry) : Option Flag :=
  let mp := |p.amount|
  let mq := |q.amount|
  if |subQ mp mq| ≤ 1 then
    let gap := |Int.fdiv p.date 86400 - Int.fdiv q.date 86400|
    if 1 ≤ gap ∧ gap ≤ 2 then
      some (Flag.dup (rndHalfEven |p.amount|) gap (Int.fdiv p.date 86400)
        (Int.fdiv q.date 86400))
    else Option.none
  else Option.none

/-- Claim C5's flags over every unordered pair (scanned in list order). -/
def claimPairFlags : List Entry → List Flag
  | [] => []
  | p :: rest => rest.filterMap (claimDupFlagOf p) ++ claimPairFlags rest

/-- Claim C5's duplicate-payment rule: pairs of payments at or before the
report date, flagged by calendar-day gap, then de-duplicated keeping
first-seen order. -/
def claimDupFlags (tl : List Entry) (rd : ℤ) : List Flag :=
  firstDedup (claimPairFlags
    (tl.filter (fun t => decide (t.date ≤ rd) && decide (t.amount < 0))))

/-- Claim C6 as stated: at least 4 distinct months, and the sorted distinct
months contain a run of 3 or more consecutive months (here: some `v` with
`v-2`, `v-1`, `v` all present) that ends at least one full month before the
report month. -/
def claimMonthlyBreak (tl : List Entry) (rd : ℤ) : Prop :=
  4 ≤ (sortedMonths tl rd).length ∧
  ∃ v : ℤ, v - 2 ∈ sortedMonths tl rd ∧ v - 1 ∈ sortedMonths tl rd ∧
    v ∈ sortedMonths tl rd ∧ 1 ≤ monthIdxOfDate rd - v

/-- Claim C6 amended: the run of 3 or more consecutive months must be
maximal, i.e. its final month `v` is not followed by `v + 1` in the month
set. -/
def amendedMonthlyBreak (tl : List Entry) (rd : ℤ) : Prop :=
  4 ≤ (sortedMonths tl rd).length ∧
  ∃ v : ℤ, v - 2 ∈ sortedMonths tl rd ∧ v - 1 ∈ sortedMonths tl rd ∧
    v ∈ sortedMonths tl rd ∧ v + 1 ∉ sortedMonths tl rd ∧ 1 ≤ monthIdxOfDate rd - v

/-- Claim C8's date resolution: the `date` field when present (present =
carrying a non-empty value; the claim reserves "even when falsy but defined"
for the `balance` field alone), else `voucherDate`. -/
def specResolvedDate (ln : RawRec) : Option String :=
  match ln.date with
  | some s => if s = "" then ln.voucherDate else some s
  | Option.none => ln.voucherDate

/-- Claim C8's description resolution: `description`, else `text`, trimmed. -/
def specResolvedDesc (ln : RawRec) : String :=
  let d : Option String :=
    match ln.description with
    | some s => if s = "" then Option.none else some s
    | Option.none => Option.none
  let t : Option String :=
    match ln.text with
    | some s => if s = "" then Option.none else some s
    | Option.none => Option.none
  String.mk (pyStrip ((d.getD (t.getD "")).data))

/-- Claim C8's amount resolution: the `balance` field whenever it is present
(even when falsy but defined, e.g. zero), else `amount`, else 0. -/
def specResolvedAmt (ln : RawRec) : PyVal :=
  match ln.balance with
  | PyVal.none =>
    match ln.amount with
    | PyVal.none => PyVal.num 0
    | PyVal.num q => if q = 0 then PyVal.num 0 else PyVal.num q
    | PyVal.str s => if s = "" then PyVal.num 0 else PyVal.str s
  | b => b

/-- Claim C8's whole field-resolution policy for one raw record. -/
def specNormEntry (ln : RawRec) : PreEntry :=
  { pdate := _parse_date (specResolvedDate ln)
    pdesc := specResolvedDesc ln
    pamount := _to_amount (specResolvedAmt ln) }

/-! ### Concrete inputs used by the claims -/

/-- The raw lines of the end-to-end scenario of claim C1. -/
def c1lines : List RawRec :=
  [ { date := some "2025-01-01", balance := PyVal.num 1000 }
  , { date := some "2025-01-03", balance := PyVal.num (-1000) }
  , { date := some "2025-06-01", balance := PyVal.num 500 } ]

/-- Timeline with activity in 2025 months 1,2,3,4 and none later (claim C6's
positive example; the report date used with it lies in month 6). -/
def c6linesA : List Entry :=
  [ Entry.mk (daysFromCivil 2025 1 5 * 86400) "" 1
  , Entry.mk (daysFromCivil 2025 2 5 * 86400) "" 1
  , Entry.mk (daysFromCivil 2025 3 5 * 86400) "" 1
  , Entry.mk (daysFromCivil 2025 4 5 * 86400) "" 1 ]

/-- Timeline with activity in 2025 months 3,4,5,6 (claim C6's counterexample
input: the maximal run reaches the report month 6, but months 3,4,5 form a
non-maximal consecutive run ending one month before it). -/
def c6linesB : List Entry :=
  [ Entry.mk (daysFromCivil 2025 3 5 * 86400) "" 1
  , Entry.mk (daysFromCivil 2025 4 5 * 86400) "" 1
  , Entry.mk (daysFromCivil 2025 5 5 * 86400) "" 1
  , Entry.mk (daysFromCivil 2025 6 5 * 86400) "" 1 ]

/-- Raw lines for claim C10's concrete conjunct: one record dated after the
report date `2025-01-10`. -/
def c10lines : List RawRec :=
  [ { date := some "2025-03-01", balance := PyVal.num 7 } ]

/-! ### Helper lemmas -/

/-- The kernel-reducible addition wrapper computes ordinary rational
addition. -/
theorem addQ_eq (a b : ℚ) : addQ a b = a + b := by
  have ha : (a.den : ℚ) ≠ 0 := Nat.cast_ne_zero.mpr a.den_nz
  have hb : (b.den : ℚ) ≠ 0 := Nat.cast_ne_zero.mpr b.den_nz
  rw [addQ, Rat.mkRat_eq_div]
  conv_rhs => rw [← Rat.num_div_den a, ← Rat.num_div_den b, div_add_div _ _ ha hb]
  push_cast
  ring_nf

/-- The kernel-reducible subtraction wrapper computes ordinary rational
subtraction. -/
theorem subQ_eq (a b : ℚ) : subQ a b = a - b := by
  rw [subQ, addQ_eq, sub_eq_add_neg]

/-! ### Claim theorems -/

/-- C9: the amount parser never fails: for every input (native number, text,
or `None`) it returns a numeric value without raising (the embedding is a
total function into `ℚ`), yielding `0.0` when every parse attempt (direct,
European-format, separator-stripped) fails; and it satisfies
`parse("1.234,56") == 1234.56`, `parse("63014") == 63014.0`,
`parse(None) == 0.0`, `parse(42) == 42.0`, `parse("garbage") == 0.0`. -/
theorem C9_amount_parser_total_and_examples :
    _to_amount (PyVal.str "1.234,56") = 1234.56 ∧
    _to_amount (PyVal.str "63014") = 63014 ∧
    _to_amount PyVal.none = 0 ∧
    _to_amount (PyVal.num 42) = 42 ∧
    _to_amount (PyVal.str "garbage") = 0 ∧
    (∀ s : String,
      pyFloatCore (cleanedAmt s) = Option.none →
      pyFloatCore ((removeChar '.' (cleanedAmt s)).map
        (fun x => if x = ',' then '.' else x)) = Option.none →
      pyFloatCore (removeChar '.' (removeChar ',' (cleanedAmt s))) = Option.none →
      _to_amount (PyVal.str s) = 0) := by
  refine ⟨?_, by decide, by decide, by decide, by decide, ?_⟩
  · have h : _to_amount (PyVal.str "1.234,56") = mkRat 123456 100 := by decide
    rw [h, Rat.mkRat_eq_div]
    norm_num
  · intro s h1 h2 h3
    simp only [_to_amount, h1, h2, h3, ite_self]

/-- C9 witness: the universal fallback clause applied at the concrete
unparseable input `"abc"`. -/
theorem C9_amount_parser_witness : _to_amount (PyVal.str "abc") = 0 :=
  C9_amount_parser_total_and_examples.2.2.2.2.2 "abc" (by decide) (by decide) (by decide)

/-- C3 counterexample: the claim says the parser drops the time-of-day, so
every valid date-time string parses equal to its plain-date part; but the
code keeps the time-of-day (`replace(tzinfo=None)` only drops the zone), so
`parse("2025-07-28T12:30:00Z")` differs from `parse("2025-07-28")`. -/
theorem C3_counterexample_time_of_day_kept :
    _parse_date (some "2025-07-28T12:30:00Z") ≠ _parse_date (some "2025-07-28") ∧
    _parse_date (some "2025-07-28T12:30:00Z") =
      some (daysFromCivil 2025 7 28 * 86400 + 45000) := by
  constructor
  · decide
  · decide

/-- A successfully parsed time-of-day suffix denotes a number of seconds
within one day (hours at most 23, minutes and seconds at most 59). -/
theorem timeSecs_bounds (cs : List Char) (secs : ℤ) (h : timeSecs cs = some secs) :
    0 ≤ secs ∧ secs < 86400 := by
  unfold timeSecs at h
  split at h
  · rename_i h1 h2 mi1 mi2 rest
    split at h
    · rename_i hguard
      simp only [Bool.and_eq_true, decide_eq_true_eq] at hguard
      obtain ⟨⟨⟨⟨⟨_, _⟩, _⟩, _⟩, hh23⟩, hm59⟩ := hguard
      split at h
      · rename_i s1 s2 rest2
        split at h
        · rename_i hguard2
          simp only [Bool.and_eq_true, decide_eq_true_eq] at hguard2
          simp only [Option.some.injEq] at h
          have hge : (0 : ℤ) ≤ (readDigits [s1, s2] 0 : ℤ) := Int.ofNat_nonneg _
          have hge2 : (0 : ℤ) ≤ (readDigits [h1, h2] 0 : ℤ) := Int.ofNat_nonneg _
          have hge3 : (0 : ℤ) ≤ (readDigits [mi1, mi2] 0 : ℤ) := Int.ofNat_nonneg _
          omega
        · exact absurd h (by simp)
      · rename_i rest2 hne
        split at h
        · simp only [Option.some.injEq] at h
          have hge2 : (0 : ℤ) ≤ (readDigits [h1, h2] 0 : ℤ) := Int.ofNat_nonneg _
          have hge3 : (0 : ℤ) ≤ (readDigits [mi1, mi2] 0 : ℤ) := Int.ofNat_nonneg _
          omega
        · exact absurd h (by simp)
    · exact absurd h (by simp)
  · exact absurd h (by simp)

/-- A successful date parse certifies that all eight date characters are
decimal digits. -/
theorem dateFromChars_digits (y1 y2 y3 y4 m1 m2 d1 d2 : Char) (day : ℤ)
    (h : dateFromChars y1 y2 y3 y4 m1 m2 d1 d2 = some day) :
    y1.isDigit = true ∧ y2.isDigit = true ∧ y3.isDigit = true ∧ y4.isDigit = true ∧
    m1.isDigit = true ∧ m2.isDigit = true ∧ d1.isDigit = true ∧ d2.isDigit = true := by
  unfold dateFromChars at h
  split at h
  · rename_i hguard
    simp only [Bool.and_eq_true] at hguard
    obtain ⟨⟨⟨⟨⟨⟨⟨a1, a2⟩, a3⟩, a4⟩, a5⟩, a6⟩, a7⟩, a8⟩ := hguard
    exact ⟨a1, a2, a3, a4, a5, a6, a7, a8⟩
  · exact absurd h (by simp)

/-- The rewrite of `Z` to `+00:00` preserves the presence of `T`. -/
theorem mem_replaceZ_T (cs : List Char) (h : 'T' ∈ cs) : 'T' ∈ replaceZ cs := by
  unfold replaceZ
  rw [List.mem_flatMap]
  exact ⟨'T', h, by decide⟩

/-- A prefix of the `Z`-rewritten string free of `+` is a prefix of the
original string: no `Z` can occur before it, because each rewritten `Z`
starts with `+`. -/
theorem replaceZ_take_eq : ∀ (cs : List Char) (n : ℕ),
    (∀ c ∈ (replaceZ cs).take n, c ≠ '+') → (replaceZ cs).take n = cs.take n := by
  intro cs
  induction cs with
  | nil => intro n _; rfl
  | cons c cs2 ih =>
    intro n hc
    by_cases hz : c = 'Z'
    · subst hz
      cases n with
      | zero => rfl
      | succ n =>
        exfalso
        have : '+' ∈ (replaceZ ('Z' :: cs2)).take (n + 1) := by
          simp [replaceZ, List.flatMap_cons, List.take_succ_cons]
        exact hc '+' this rfl
    · have hrw : replaceZ (c :: cs2) = c :: replaceZ cs2 := by
        simp [replaceZ, List.flatMap_cons, hz]
      rw [hrw] at hc ⊢
      cases n with
      | zero => rfl
      | succ n =>
        simp only [List.take_succ_cons]
        rw [ih n (fun x hx => hc x (List.mem_cons_of_mem c hx))]

/-- C3 amended: the date parser strips the trailing UTC marker and drops the
zone but retains the time-of-day.  Universally: for every date-time string
`s` the parser accepts (one containing a time component, parsing to `v`),
the plain-date part of `s` — its first ten characters — parses to exactly
the calendar-date part `(v.fdiv 86400) * 86400` of the result, so the
difference `v % 86400` is precisely the retained time-of-day, and the two
parses compare equal exactly when that time-of-day is midnight (as in
`parse("2025-07-28T00:00:00Z") = parse("2025-07-28")`).  Any failure,
including empty or absent input, yields the unparseable signal (`none`)
instead of raising. -/
theorem C3_date_parser_amended :
    (∀ (s : String) (v : ℤ), s.data.contains 'T' = true →
      _parse_date (some s) = some v →
      _parse_date (some (String.mk (s.data.take 10))) =
        some (Int.fdiv v 86400 * 86400) ∧
      (_parse_date (some (String.mk (s.data.take 10))) = _parse_date (some s) ↔
        v % 86400 = 0)) ∧
    _parse_date (some "2025-07-28T00:00:00Z") = _parse_date (some "2025-07-28") ∧
    _parse_date (some "2025-07-28T00:00:00Z") = some (daysFromCivil 2025 7 28 * 86400) ∧
    _parse_date Option.none = Option.none ∧
    _parse_date (some "") = Option.none ∧
    _parse_date (some "not-a-date") = Option.none ∧
    _parse_date (some "2025-13-01") = Option.none := by
  refine ⟨?_, by decide, by decide, rfl, by decide, by decide, by decide⟩
  intro s v hT hparse0
  have hs_ne : ¬(s = "") := by
    intro h
    subst h
    simp [List.contains] at hT
  have hTm : 'T' ∈ s.data := List.elem_iff.mp hT
  have hparse : fromisoformat (replaceZ s.data) = some v := by
    simpa [_parse_date, hs_ne, hTm] using hparse0
  unfold fromisoformat at hparse
  split at hparse
  · rename_i y1 y2 y3 y4 m1 m2 d1 d2 rest heq
    cases hdc : dateFromChars y1 y2 y3 y4 m1 m2 d1 d2 with
    | none => rw [hdc] at hparse; exact absurd hparse (by simp)
    | some day =>
      rw [hdc] at hparse
      simp only [] at hparse
      obtain ⟨hg1, hg2, hg3, hg4, hg5, hg6, hg7, hg8⟩ :=
        dateFromChars_digits y1 y2 y3 y4 m1 m2 d1 d2 day hdc
      have hdig_ne : ∀ x : Char, x.isDigit = true → x ≠ '+' := by
        intro x hx hxe
        rw [hxe] at hx
        exact absurd hx (by decide)
      have hdig_neT : ∀ x : Char, x.isDigit = true → ¬('T' = x) := by
        intro x hx hxe
        rw [← hxe] at hx
        exact absurd hx (by decide)
      have htake_rz : (replaceZ s.data).take 10 =
          [y1, y2, y3, y4, '-', m1, m2, '-', d1, d2] := by
        rw [heq]
        rfl
      have hplus : ∀ c ∈ (replaceZ s.data).take 10, c ≠ '+' := by
        rw [htake_rz]
        intro c hc
        simp only [List.mem_cons, List.not_mem_nil, or_false] at hc
        rcases hc with rfl | rfl | rfl | rfl | rfl | rfl | rfl | rfl | rfl | rfl
        · exact hdig_ne _ hg1
        · exact hdig_ne _ hg2
        · exact hdig_ne _ hg3
        · exact hdig_ne _ hg4
        · decide
        · exact hdig_ne _ hg5
        · exact hdig_ne _ hg6
        · decide
        · exact hdig_ne _ hg7
        · exact hdig_ne _ hg8
      have htake : s.data.take 10 = [y1, y2, y3, y4, '-', m1, m2, '-', d1, d2] := by
        rw [← replaceZ_take_eq s.data 10 hplus, htake_rz]
      have hdatepart : _parse_date (some (String.mk (s.data.take 10))) =
          some (day * 86400) := by
        rw [htake]
        have hnoTm : ¬('T' ∈ ([y1, y2, y3, y4, '-', m1, m2, '-', d1, d2] : List Char)) := by
          intro hmem
          simp only [List.mem_cons, List.not_mem_nil, or_false] at hmem
          rcases hmem with h | h | h | h | h | h | h | h | h | h
          · exact hdig_neT _ hg1 h
          · exact hdig_neT _ hg2 h
          · exact hdig_neT _ hg3 h
          · exact hdig_neT _ hg4 h
          · exact absurd h (by decide)
          · exact hdig_neT _ hg5 h
          · exact hdig_neT _ hg6 h
          · exact absurd h (by decide)
          · exact hdig_neT _ hg7 h
          · exact hdig_neT _ hg8 h
        have hne2 : ¬(String.mk [y1, y2, y3, y4, '-', m1, m2, '-', d1, d2] = "") := by
          intro hcon
          exact absurd (congrArg String.data hcon) (by simp)
        have hnoT2 : ¬((String.mk [y1, y2, y3, y4, '-', m1, m2, '-', d1, d2]).data.contains
            'T' = true) := by
          intro hcon
          exact hnoTm (List.elem_iff.mp hcon)
        simp only [_parse_date]
        rw [if_neg hne2, if_neg hnoT2]
        simp [fromisoformat, hdc]
      split at hparse
      · -- rest = []: the string contains no time component, contradiction
        exfalso
        have hTmem : 'T' ∈ replaceZ s.data :=
          mem_replaceZ_T s.data (List.elem_iff.mp hT)
        rw [heq] at hTmem
        simp only [List.mem_cons, List.not_mem_nil, or_false] at hTmem
        rcases hTmem with h | h | h | h | h | h | h | h | h | h
        · exact hdig_neT _ hg1 h
        · exact hdig_neT _ hg2 h
        · exact hdig_neT _ hg3 h
        · exact hdig_neT _ hg4 h
        · exact absurd h (by decide)
        · exact hdig_neT _ hg5 h
        · exact hdig_neT _ hg6 h
        · exact absurd h (by decide)
        · exact hdig_neT _ hg7 h
        · exact hdig_neT _ hg8 h
      · -- rest = 'T' :: trest
        rename_i trest
        cases hts : timeSecs trest with
        | none => rw [hts] at hparse; exact absurd hparse (by simp)
        | some secs =>
          rw [hts] at hparse
          simp only [Option.map_some', Option.some.injEq] at hparse
          obtain ⟨hs0, hs1⟩ := timeSecs_bounds trest secs hts
          have hfd : Int.fdiv v 86400 = day := by
            rw [Int.fdiv_eq_ediv _ (by norm_num)]
            omega
          refine ⟨by rw [hfd]; exact hdatepart, ?_⟩
          rw [hdatepart, hparse0]
          simp only [Option.some.injEq]
          constructor
          · intro h
            omega
          · intro h
            omega
      · -- any other tail: the parse fails
        exact absurd hparse (by simp)
  · exact absurd hparse (by simp)

/-- C3 witness: the universal clause applied at the concrete date-time
"2025-07-28T12:30:00Z", whose retained time-of-day 12:30 makes the equality
clause yield a strict difference from the plain date. -/
theorem C3_date_parser_witness :
    _parse_date (some (String.mk ("2025-07-28T12:30:00Z".data.take 10))) =
      some (Int.fdiv (daysFromCivil 2025 7 28 * 86400 + 45000) 86400 * 86400) ∧
    (_parse_date (some (String.mk ("2025-07-28T12:30:00Z".data.take 10))) =
        _parse_date (some "2025-07-28T12:30:00Z") ↔
      (daysFromCivil 2025 7 28 * 86400 + 45000) % 86400 = 0) :=
  C3_date_parser_amended.1 "2025-07-28T12:30:00Z"
    (daysFromCivil 2025 7 28 * 86400 + 45000) (by decide) (by decide)

/-- C1 counterexample: on the end-to-end scenario's raw lines with report
date 2025-07-01, the unpaid-invoice aging rule emits no flag at all (the
open 500 invoice is dated 2025-06-01, only 30 days before the report date,
not more than 50), and the only red flag of the whole review is the
debit-balance flag — contradicting the claim that the aging rule flags the
500 invoice. -/
theorem C1_counterexample_no_aging_flag :
    unpaid_invoice_over_50d (build_timeline c1lines) (daysFromCivil 2025 7 1 * 86400) = [] ∧
    (review_vendor c1lines "2025-07-01").map (fun r => r.red) = some [Flag.debit] := by
  constructor
  · decide
  · decide

/-- C1 amended: for the raw lines of the scenario and report date
2025-07-01, `review_vendor` returns balance 500, emits no duplicate-payment
flag, and the unpaid-invoice aging rule emits no flag (the 500 invoice is
unmatched but only 30 days old — not beyond the 50-day cutoff). -/
theorem C1_end_to_end_amended :
    (review_vendor c1lines "2025-07-01").map (fun r => r.balance) = some 500 ∧
    duplicate_payments (build_timeline c1lines) (daysFromCivil 2025 7 1 * 86400) = [] ∧
    unpaid_invoice_over_50d (build_timeline c1lines) (daysFromCivil 2025 7 1 * 86400) = [] := by
  refine ⟨by decide, by decide, by decide⟩

/-- The code's FIFO consumption loop equals the matcher consumption step
described by the spec (the loop guard `while pay > 0` is the complement of
the spec's "payment exhausted" condition). -/
theorem consume_eq_specSettle (pay : ℚ) (l : List (ℤ × ℚ)) :
    consume pay l = specSettle pay l := by
  induction l generalizing pay with
  | nil => rfl
  | cons hd rest ih =>
    obtain ⟨d, amt⟩ := hd
    by_cases hp : pay ≤ 0
    · simp [consume, specSettle, hp, not_lt.mpr hp]
    · simp [consume, specSettle, hp, not_le.mp hp, ih]

/-- The code's ledger scan equals the spec's Invoice Matcher. -/
theorem openLedger_eq_specMatcher (txs : List Entry) :
    openLedger txs = specMatcher txs := by
  unfold openLedger specMatcher
  have h : (fun (led : List (ℤ × ℚ)) (tx : Entry) =>
      if 0 < tx.amount then led ++ [(tx.date, tx.amount)]
      else if tx.amount < 0 then consume (-tx.amount) led
      else led) = (fun (ledger : List (ℤ × ℚ)) (tx : Entry) =>
      if 0 < tx.amount then ledger ++ [(tx.date, tx.amount)]
      else if tx.amount < 0 then specSettle (-tx.amount) ledger
      else ledger) := by
    funext led tx
    rw [consume_eq_specSettle]
  rw [h]

/-- C2: for every timeline and report date the unpaid-invoice aging rule
equals the spec's description — FIFO-match each negative amount against open
positive entries oldest-first, removing an entry once its remaining amount
falls to at most 1.0, then emit one flag for exactly the remaining entries
whose invoice date is at or before reportDate − 50 days and whose remaining
amount exceeds 1.0; in particular a single invoice of 1000 on day 0 with no
payments is flagged at report day 60 and not at report day 40. -/
theorem C2_aging_rule_fifo :
    (∀ (tl : List Entry) (rd : ℤ),
      unpaid_invoice_over_50d tl rd = specAgingFlags tl rd) ∧
    unpaid_invoice_over_50d [Entry.mk 0 "" 1000] (60 * 86400) = [Flag.unpaid 0] ∧
    unpaid_invoice_over_50d [Entry.mk 0 "" 1000] (40 * 86400) = [] := by
  refine ⟨?_, by decide, by decide⟩
  intro tl rd
  simp only [unpaid_invoice_over_50d, specAgingFlags, openLedger_eq_specMatcher]

/-- C4: the credit-balance-mismatch rule returns `false` whenever the ending
balance is at least −1.0 (so it can only flag when the balance is strictly
below −1.0), and for a credit balance below −1.0 it flags if and only if no
single open-invoice amount matches the magnitude of the ending balance
within a tolerance of 1.0 (`subQ` is exact rational subtraction, see
`subQ_eq`). -/
theorem C4_credit_mismatch_tolerance (tl : List Entry) (rd : ℤ) :
    (-1 ≤ ending_balance tl rd → credit_balance_mismatch tl rd = false) ∧
    (ending_balance tl rd < -1 →
      (credit_balance_mismatch tl rd = true ↔
        ∀ a ∈ openAmts (filterLE tl rd), ¬(|subQ a (-(ending_balance tl rd))| ≤ 1))) := by
  constructor
  · intro h
    simp [credit_balance_mismatch, h]
  · intro h
    have h' : ¬(-1 ≤ ending_balance tl rd) := not_le.mpr h
    simp [credit_balance_mismatch, h', List.any_eq_true]

/-- C4 witness: at the concrete timeline with a payment of 100 on day 0 and
an invoice of 95 on day 1 (ending balance −5), the rule flags the mismatch;
at the timeline with a payment of 200 and an invoice of 100 (ending balance
−100, matching the open invoice of 100 exactly), it does not; and at the C1
scenario (balance 500 ≥ −1) it returns false. -/
theorem C4_credit_mismatch_witness :
    credit_balance_mismatch [Entry.mk 0 "" (-100), Entry.mk 86400 "" 95] (10 * 86400) = true ∧
    credit_balance_mismatch [Entry.mk 0 "" (-200), Entry.mk 86400 "" 100] (10 * 86400) = false ∧
    credit_balance_mismatch (build_timeline c1lines) (daysFromCivil 2025 7 1 * 86400) = false := by
  refine ⟨?_, ?_, ?_⟩
  · exact ((C4_credit_mismatch_tolerance
      [Entry.mk 0 "" (-100), Entry.mk 86400 "" 95] (10 * 86400)).2
      (by decide)).mpr (by decide)
  · by_contra hne
    have htrue : credit_balance_mismatch
        [Entry.mk 0 "" (-200), Entry.mk 86400 "" 100] (10 * 86400) = true := by
      revert hne
      cases credit_balance_mismatch [Entry.mk 0 "" (-200), Entry.mk 86400 "" 100] (10 * 86400)
      · simp
      · simp
    have hall := ((C4_credit_mismatch_tolerance
      [Entry.mk 0 "" (-200), Entry.mk 86400 "" 100] (10 * 86400)).2 (by decide)).mp htrue
    exact absurd (hall 100 (by decide)) (by decide)
  · exact (C4_credit_mismatch_tolerance (build_timeline c1lines)
      (daysFromCivil 2025 7 1 * 86400)).1 (by decide)

/-- C8: for every raw record the Timeline Builder resolves fields
first-present-wins — the date from the `date` field when present (i.e.
carrying a non-empty value; the claim reserves "even when falsy but defined"
for `balance` alone), else `voucherDate`; the description from
`description`, else `text`, trimmed; the amount from `balance` whenever it
is defined (even when zero), else from `amount`, else 0.  The concrete
conjuncts pin the distinguishing cases: a defined-but-zero `balance` beats a
nonzero `amount`, and absent fields fall through. -/
theorem C8_field_resolution :
    (∀ ln : RawRec, normEntry ln = specNormEntry ln) ∧
    (normEntry { balance := PyVal.num 0, amount := PyVal.num 5 }).pamount = 0 ∧
    (normEntry { amount := PyVal.num 5 }).pamount = 5 ∧
    (normEntry {}).pamount = 0 ∧
    (normEntry { date := some "2025-01-02", voucherDate := some "2025-01-03" }).pdate =
      some (daysFromCivil 2025 1 2 * 86400) ∧
    (normEntry { voucherDate := some "2025-01-03" }).pdate =
      some (daysFromCivil 2025 1 3 * 86400) ∧
    (normEntry { description := some "  x  " }).pdesc = "x" := by
  refine ⟨?_, by decide, by decide, by decide, by decide, by decide, by decide⟩
  intro ln
  have hd : resolvedDate ln = specResolvedDate ln := by
    cases h : ln.date with
    | none => simp [resolvedDate, specResolvedDate, strTruthy, h]
    | some s =>
      by_cases hs : s = "" <;> simp [resolvedDate, specResolvedDate, strTruthy, h, hs]
  have hdesc : resolvedDesc ln = specResolvedDesc ln := by
    cases hD : ln.description with
    | none =>
      cases hT : ln.text with
      | none => simp [resolvedDesc, specResolvedDesc, strTruthy, hD, hT]
      | some t =>
        by_cases ht : t = "" <;> simp [resolvedDesc, specResolvedDesc, strTruthy, hD, hT, ht]
    | some s =>
      by_cases hs : s = ""
      · cases hT : ln.text with
        | none => simp [resolvedDesc, specResolvedDesc, strTruthy, hD, hT, hs]
        | some t =>
          by_cases ht : t = "" <;>
            simp [resolvedDesc, specResolvedDesc, strTruthy, hD, hT, hs, ht]
      · simp [resolvedDesc, specResolvedDesc, strTruthy, hD, hs]
  have hamt : resolvedRawAmt ln = specResolvedAmt ln := by
    cases hB : ln.balance with
    | none =>
      cases hA : ln.amount with
      | none => simp [resolvedRawAmt, specResolvedAmt, pyTruthy, hB, hA]
      | num q =>
        by_cases hq : q = 0 <;> simp [resolvedRawAmt, specResolvedAmt, pyTruthy, hB, hA, hq]
      | str s =>
        by_cases hs : s = "" <;> simp [resolvedRawAmt, specResolvedAmt, pyTruthy, hB, hA, hs]
    | num q => simp [resolvedRawAmt, specResolvedAmt, hB]
    | str s => simp [resolvedRawAmt, specResolvedAmt, hB]
  simp [normEntry, specNormEntry, hd, hdesc, hamt]

/-- For entries dated at midnight, the code's pairwise duplicate test (floor
day-difference of the timestamps, magnitudes via the signed amounts) agrees
with the claim's (calendar-day gap, magnitudes). -/
theorem dupFlagOf_midnight (p q : Entry) (hp0 : p.date % 86400 = 0)
    (hq0 : q.date % 86400 = 0) (hpn : p.amount < 0) (hqn : q.amount < 0) :
    dupFlagOf p q = claimDupFlagOf p q := by
  obtain ⟨kp, hkp⟩ := Int.dvd_of_emod_eq_zero hp0
  obtain ⟨kq, hkq⟩ := Int.dvd_of_emod_eq_zero hq0
  have hmag : |subQ p.amount q.amount| = |subQ (|p.amount|) (|q.amount|)| := by
    rw [subQ_eq, subQ_eq, abs_of_neg hpn, abs_of_neg hqn, neg_sub_neg, abs_sub_comm]
  have hgap : Int.fdiv (p.date - q.date) 86400 =
      Int.fdiv p.date 86400 - Int.fdiv q.date 86400 := by
    rw [hkp, hkq, ← mul_sub, Int.mul_fdiv_cancel_left _ (by norm_num),
      Int.mul_fdiv_cancel_left _ (by norm_num), Int.mul_fdiv_cancel_left _ (by norm_num)]
  simp only [dupFlagOf, claimDupFlagOf]
  rw [hmag, hgap]

/-- The pairwise scans of the code and of the claim agree on a list of
midnight-dated payments. -/
theorem pairFlags_midnight : ∀ l : List Entry,
    (∀ e ∈ l, e.date % 86400 = 0 ∧ e.amount < 0) → pairFlags l = claimPairFlags l := by
  intro l
  induction l with
  | nil => intro _; rfl
  | cons p rest ih =>
    intro h
    have hp := h p (List.mem_cons_self p rest)
    have hrest : ∀ e ∈ rest, e.date % 86400 = 0 ∧ e.amount < 0 :=
      fun e he => h e (List.mem_cons_of_mem p he)
    have hmapeq : ∀ r : List Entry, (∀ e ∈ r, e.date % 86400 = 0 ∧ e.amount < 0) →
        r.filterMap (dupFlagOf p) = r.filterMap (claimDupFlagOf p) := by
      intro r
      induction r with
      | nil => intro _; rfl
      | cons q rest2 ih2 =>
        intro hr
        have hq := hr q (List.mem_cons_self q rest2)
        have hrest2 : ∀ e ∈ rest2, e.date % 86400 = 0 ∧ e.amount < 0 :=
          fun e he => hr e (List.mem_cons_of_mem q he)
        simp only [List.filterMap_cons,
          dupFlagOf_midnight p q hp.1 hq.1 hp.2 hq.2, ih2 hrest2]
    simp only [pairFlags, claimPairFlags, hmapeq rest hrest, ih hrest]

/-- C5 counterexample: two payments of −100 on the same calendar day, one at
midnight and one at noon, have calendar-day gap 0, so the claim emits no
flag; but the code computes `abs((t1 − t2).days) = abs(floor(−12h / 24h)) =
1` and does emit a duplicate flag. -/
theorem C5_counterexample_same_day_noon :
    duplicate_payments [Entry.mk 0 "" (-100), Entry.mk 43200 "" (-100)] (10 * 86400) =
      [Flag.dup 100 1 0 0] ∧
    claimDupFlags [Entry.mk 0 "" (-100), Entry.mk 43200 "" (-100)] (10 * 86400) = [] ∧
    duplicate_payments [Entry.mk 0 "" (-100), Entry.mk 43200 "" (-100)] (10 * 86400) ≠
      claimDupFlags [Entry.mk 0 "" (-100), Entry.mk 43200 "" (-100)] (10 * 86400) := by
  refine ⟨by decide, by decide, by decide⟩

/-- C5 amended: the duplicate-payment rule flags pairs of payments at or
before the report date whose magnitudes differ by at most 1.0 and whose day
gap — computed as the floor of the signed time difference in days, which
equals the calendar-day gap whenever the entries carry no time-of-day — is 1
or 2 inclusive, de-duplicating flag texts in first-seen order; two payments
of −18004 on day 0 and day 2 produce exactly one flag, and the same two
payments 5 days apart produce none. -/
theorem C5_duplicate_payments_amended :
    (∀ (tl : List Entry) (rd : ℤ), (∀ e ∈ tl, e.date % 86400 = 0) →
      duplicate_payments tl rd = claimDupFlags tl rd) ∧
    duplicate_payments [Entry.mk 0 "" (-18004), Entry.mk (2 * 86400) "" (-18004)]
      (10 * 86400) = [Flag.dup 18004 2 0 2] ∧
    duplicate_payments [Entry.mk 0 "" (-18004), Entry.mk (5 * 86400) "" (-18004)]
      (10 * 86400) = [] := by
  refine ⟨?_, by decide, by decide⟩
  intro tl rd h
  unfold duplicate_payments claimDupFlags
  have hmem : ∀ e ∈ tl.filter (fun t => decide (t.date ≤ rd) && decide (t.amount < 0)),
      e.date % 86400 = 0 ∧ e.amount < 0 := by
    intro e he
    have h2 := (List.mem_filter.mp he).2
    simp only [Bool.and_eq_true, decide_eq_true_eq] at h2
    exact ⟨h e (List.mem_of_mem_filter he), h2.2⟩
  rw [pairFlags_midnight _ hmem]

/-- C5 witness: the midnight-dates clause of the amended theorem applied at
the concrete day-0/day-2 pair of −18004 payments. -/
theorem C5_duplicate_payments_witness :
    duplicate_payments [Entry.mk 0 "" (-18004), Entry.mk (2 * 86400) "" (-18004)]
      (10 * 86400) =
    claimDupFlags [Entry.mk 0 "" (-18004), Entry.mk (2 * 86400) "" (-18004)]
      (10 * 86400) :=
  C5_duplicate_payments_amended.1
    [Entry.mk 0 "" (-18004), Entry.mk (2 * 86400) "" (-18004)] (10 * 86400) (by decide)

/-- Inserting an entry whose date is `d` leaves it in front of every other
entry with date `d` (the entries skipped over all have strictly smaller
dates), so filtering on date `d` sees it first. -/
theorem filter_orderedInsert_pos (x : Entry) (d : ℤ) (hx : x.date = d) :
    ∀ l : List Entry,
      (List.orderedInsert (fun a b => a.date ≤ b.date) x l).filter
        (fun e => decide (e.date = d)) =
      x :: l.filter (fun e => decide (e.date = d)) := by
  intro l
  induction l with
  | nil => simp [hx]
  | cons b l ih =>
    by_cases hbx : x.date ≤ b.date
    · simp only [List.orderedInsert]
      rw [if_pos hbx]
      simp [List.filter_cons, hx]
    · have hbd : ¬(b.date = d) := by
        have : b.date < x.date := lt_of_not_ge hbx
        omega
      simp only [List.orderedInsert]
      rw [if_neg hbx]
      simp [List.filter_cons, hbd, ih]

/-- Inserting an entry whose date is not `d` does not change the sublist of
entries with date `d`. -/
theorem filter_orderedInsert_neg (x : Entry) (d : ℤ) (hx : ¬(x.date = d)) :
    ∀ l : List Entry,
      (List.orderedInsert (fun a b => a.date ≤ b.date) x l).filter
        (fun e => decide (e.date = d)) =
      l.filter (fun e => decide (e.date = d)) := by
  intro l
  induction l with
  | nil => simp [hx]
  | cons b l ih =>
    by_cases hbx : x.date ≤ b.date
    · simp only [List.orderedInsert]
      rw [if_pos hbx]
      simp [List.filter_cons, hx]
    · simp only [List.orderedInsert]
      rw [if_neg hbx]
      simp [List.filter_cons, ih]

/-- Stability of the timeline sort: for every date, the entries carrying
that date appear in the sorted output exactly as they appear in the input. -/
theorem filter_insertionSort_stable (d : ℤ) :
    ∀ l : List Entry,
      (List.insertionSort (fun a b => a.date ≤ b.date) l).filter
        (fun e => decide (e.date = d)) =
      l.filter (fun e => decide (e.date = d)) := by
  intro l
  induction l with
  | nil => rfl
  | cons a l ih =>
    by_cases ha : a.date = d
    · simp only [List.insertionSort, filter_orderedInsert_pos a d ha, ih,
        List.filter_cons, ha]
      simp
    · simp only [List.insertionSort, filter_orderedInsert_neg a d ha, ih,
        List.filter_cons, ha]
      simp [ha]

/-- The kept normalized records are exactly one per input record with a
parseable date. -/
theorem normalizedKept_length : ∀ lines : List RawRec,
    (normalizedKept lines).length =
      (lines.filter (fun ln => (_parse_date (resolvedDate ln)).isSome)).length := by
  intro lines
  induction lines with
  | nil => rfl
  | cons ln rest ih =>
    simp only [normalizedKept, List.map_cons, List.filterMap_cons, List.filter_cons]
    cases h : _parse_date (resolvedDate ln) with
    | none =>
      have hn : (normEntry ln).pdate = Option.none := h
      simp only [hn, Option.map_none, h, Option.isSome_none, Bool.false_eq_true,
        if_false]
      exact ih
    | some t =>
      have hn : (normEntry ln).pdate = some t := h
      simp only [hn, Option.map_some, h, Option.isSome_some, if_true,
        List.length_cons]
      simpa [normalizedKept] using ih

/-- C7: for every input sequence of raw records, the built timeline is
sorted ascending by date; entries with equal dates retain their relative
input order (for each date `d`, the date-`d` sublist of the output equals
the date-`d` sublist of the normalized input, for every input, hence for
every permutation of it); the output is a permutation of the kept normalized
records; and records whose date cannot be parsed are absent — the output has
exactly one entry per input record with a parseable date. -/
theorem C7_timeline_sorted_stable_drops (lines : List RawRec) :
    List.Sorted (fun a b : Entry => a.date ≤ b.date) (build_timeline lines) ∧
    (∀ d : ℤ, (build_timeline lines).filter (fun e => decide (e.date = d)) =
      (normalizedKept lines).filter (fun e => decide (e.date = d))) ∧
    (build_timeline lines).Perm (normalizedKept lines) ∧
    (build_timeline lines).length =
      (lines.filter (fun ln => (_parse_date (resolvedDate ln)).isSome)).length := by
  refine ⟨?_, ?_, ?_, ?_⟩
  · exact List.sorted_insertionSort _ _
  · intro d
    exact filter_insertionSort_stable d (normalizedKept lines)
  · exact List.perm_insertionSort _ _
  · unfold build_timeline
    rw [(List.perm_insertionSort
      (fun a b : Entry => a.date ≤ b.date) (normalizedKept lines)).length_eq]
    exact normalizedKept_length lines

/-- Filtering by the report date is idempotent. -/
theorem filterLE_idem (tl : List Entry) (rd : ℤ) :
    filterLE (filterLE tl rd) rd = filterLE tl rd := by
  unfold filterLE
  rw [List.filter_filter]
  apply List.filter_congr
  intro x _
  simp

/-- The ending balance only depends on entries at or before the report
date. -/
theorem ending_balance_filter (tl : List Entry) (rd : ℤ) :
    ending_balance (filterLE tl rd) rd = ending_balance tl rd := by
  unfold ending_balance
  rw [filterLE_idem]

/-- The aging rule only depends on entries at or before the report date. -/
theorem unpaid_filter (tl : List Entry) (rd : ℤ) :
    unpaid_invoice_over_50d (filterLE tl rd) rd = unpaid_invoice_over_50d tl rd := by
  unfold unpaid_invoice_over_50d
  rw [filterLE_idem]

/-- The credit-mismatch rule only depends on entries at or before the report
date. -/
theorem credit_filter (tl : List Entry) (rd : ℤ) :
    credit_balance_mismatch (filterLE tl rd) rd = credit_balance_mismatch tl rd := by
  unfold credit_balance_mismatch
  rw [filterLE_idem, ending_balance_filter]

/-- The duplicate-payment rule only depends on entries at or before the
report date. -/
theorem dup_filter (tl : List Entry) (rd : ℤ) :
    duplicate_payments (filterLE tl rd) rd = duplicate_payments tl rd := by
  unfold duplicate_payments filterLE
  rw [List.filter_filter]
  congr 1
  congr 1
  apply List.filter_congr
  intro x _
  by_cases h1 : x.date ≤ rd <;> by_cases h2 : x.amount < 0 <;> simp [h1, h2]

/-- The month set of the pattern-break rule only depends on entries at or
before the report date. -/
theorem months_filter (tl : List Entry) (rd : ℤ) :
    sortedMonths (filterLE tl rd) rd = sortedMonths tl rd := by
  unfold sortedMonths
  rw [filterLE_idem]

/-- The pattern-break rule only depends on entries at or before the report
date. -/
theorem break_filter (tl : List Entry) (rd : ℤ) :
    break_in_monthly_pattern (filterLE tl rd) rd = break_in_monthly_pattern tl rd := by
  unfold break_in_monthly_pattern
  rw [months_filter]

/-- The inactivity rule only depends on entries at or before the report
date. -/
theorem inactive_filter (tl : List Entry) (rd : ℤ) :
    inactive_with_balance (filterLE tl rd) rd = inactive_with_balance tl rd := by
  unfold inactive_with_balance
  rw [filterLE_idem, ending_balance_filter]

/-- C10: for every input, the `timeline` field returned by `review_vendor`
is the full normalized timeline of all parseable records — including entries
dated strictly after the report date — while the balance and every red and
orange flag are computed only from entries dated at or before the report
date (each rule applied to the pre-filtered timeline gives the same result).
The concrete conjunct shows a record dated 2025-03-01 appearing in the
timeline of a review dated 2025-01-10 that counts it in no balance or
flag. -/
theorem C10_full_timeline_filtered_rules :
    (∀ (lines : List RawRec) (s : String) (rd : ℤ), strptimeYmd s = some rd →
      review_vendor lines s = some
        { balance := ending_balance (filterLE (build_timeline lines) rd) rd
          red := unpaid_invoice_over_50d (filterLE (build_timeline lines) rd) rd
            ++ (if 1 < ending_balance (filterLE (build_timeline lines) rd) rd
                then [Flag.debit] else [])
            ++ (if credit_balance_mismatch (filterLE (build_timeline lines) rd) rd
                then [Flag.creditNoMatch] else [])
            ++ duplicate_payments (filterLE (build_timeline lines) rd) rd
          orange :=
            (if break_in_monthly_pattern (filterLE (build_timeline lines) rd) rd
             then [Flag.patternBreak] else [])
            ++ (if inactive_with_balance (filterLE (build_timeline lines) rd) rd
                then [Flag.inactive] else [])
          timeline := build_timeline lines }) ∧
    review_vendor c10lines "2025-01-10" = some
      { balance := 0, red := [], orange := []
        timeline := [Entry.mk (daysFromCivil 2025 3 1 * 86400) "" 7] } := by
  refine ⟨?_, by decide⟩
  intro lines s rd h
  unfold review_vendor
  rw [h]
  simp only [Option.map_some', ending_balance_filter, unpaid_filter, credit_filter,
    dup_filter, break_filter, inactive_filter]

/-- C10 witness: the universal clause applied at the concrete lines
`c10lines` and report-date string "2025-01-10". -/
theorem C10_full_timeline_witness :
    review_vendor c10lines "2025-01-10" = some
      { balance := ending_balance
          (filterLE (build_timeline c10lines) (daysFromCivil 2025 1 10 * 86400))
          (daysFromCivil 2025 1 10 * 86400)
        red := unpaid_invoice_over_50d
            (filterLE (build_timeline c10lines) (daysFromCivil 2025 1 10 * 86400))
            (daysFromCivil 2025 1 10 * 86400)
          ++ (if 1 < ending_balance
                (filterLE (build_timeline c10lines) (daysFromCivil 2025 1 10 * 86400))
                (daysFromCivil 2025 1 10 * 86400)
              then [Flag.debit] else [])
          ++ (if credit_balance_mismatch
                (filterLE (build_timeline c10lines) (daysFromCivil 2025 1 10 * 86400))
                (daysFromCivil 2025 1 10 * 86400)
              then [Flag.creditNoMatch] else [])
          ++ duplicate_payments
            (filterLE (build_timeline c10lines) (daysFromCivil 2025 1 10 * 86400))
            (daysFromCivil 2025 1 10 * 86400)
        orange :=
          (if break_in_monthly_pattern
              (filterLE (build_timeline c10lines) (daysFromCivil 2025 1 10 * 86400))
              (daysFromCivil 2025 1 10 * 86400)
           then [Flag.patternBreak] else [])
          ++ (if inactive_with_balance
                (filterLE (build_timeline c10lines) (daysFromCivil 2025 1 10 * 86400))
                (daysFromCivil 2025 1 10 * 86400)
              then [Flag.inactive] else [])
        timeline := build_timeline c10lines } :=
  C10_full_timeline_filtered_rules.1 c10lines "2025-01-10"
    (daysFromCivil 2025 1 10 * 86400) (by decide)

/-- Characterization of the pattern-break scan loop.  For a strictly
increasing month list `prev :: rest`, where the scan has already seen a
consecutive run of `c + 1` months ending at `prev` (so the months
`prev - c, …, prev` are all "present"), the loop returns `true` exactly when
some month `v` ends a maximal consecutive run of length at least 3 (both
`v - 1` and `v - 2` present, `v + 1` absent) at least one month before the
report month. -/
theorem scanRunsB_iff (rep : ℤ) :
    ∀ (rest : List ℤ) (prev : ℤ) (c : ℕ),
      List.Pairwise (· < ·) (prev :: rest) →
      (scanRunsB rep prev (c + 1) rest = true ↔
        ∃ v : ℤ,
          ((prev - (c : ℤ) ≤ v ∧ v ≤ prev) ∨ v ∈ rest) ∧
          ((prev - (c : ℤ) ≤ v - 1 ∧ v - 1 ≤ prev) ∨ v - 1 ∈ rest) ∧
          ((prev - (c : ℤ) ≤ v - 2 ∧ v - 2 ≤ prev) ∨ v - 2 ∈ rest) ∧
          ¬((prev - (c : ℤ) ≤ v + 1 ∧ v + 1 ≤ prev) ∨ v + 1 ∈ rest) ∧
          1 ≤ rep - v) := by
  intro rest
  induction rest with
  | nil =>
    intro prev c _
    constructor
    · intro h
      have h' : 3 ≤ c + 1 ∧ 1 ≤ rep - prev := by simpa [scanRunsB] using h
      refine ⟨prev, Or.inl ⟨by omega, le_refl _⟩, Or.inl ⟨by omega, by omega⟩,
        Or.inl ⟨by omega, by omega⟩, ?_, h'.2⟩
      rintro (⟨_, hle⟩ | hmem)
      · omega
      · exact absurd hmem (List.not_mem_nil _)
    · rintro ⟨v, hv, hv1, hv2, hnv, hrep⟩
      have hvI : prev - (c : ℤ) ≤ v ∧ v ≤ prev := by
        rcases hv with h | h
        · exact h
        · exact absurd h (List.not_mem_nil _)
      have hv2I : prev - (c : ℤ) ≤ v - 2 ∧ v - 2 ≤ prev := by
        rcases hv2 with h | h
        · exact h
        · exact absurd h (List.not_mem_nil _)
      have hnvI : ¬(prev - (c : ℤ) ≤ v + 1 ∧ v + 1 ≤ prev) := by
        intro hcon
        exact hnv (Or.inl hcon)
      simp only [scanRunsB, decide_eq_true_eq]
      omega
  | cons m rest2 ih =>
    intro prev c hpw
    have hpm : prev < m := (List.pairwise_cons.mp hpw).1 m (List.mem_cons_self m rest2)
    have hpw2 : List.Pairwise (· < ·) (m :: rest2) := (List.pairwise_cons.mp hpw).2
    have hmrest : ∀ x ∈ rest2, m < x := (List.pairwise_cons.mp hpw2).1
    by_cases hcons : m - prev = 1
    · have heq : scanRunsB rep prev (c + 1) (m :: rest2) =
          scanRunsB rep m (c + 1 + 1) rest2 := by
        simp [scanRunsB, hcons]
      have hset : ∀ x : ℤ,
          ((m - ((c : ℤ) + 1) ≤ x ∧ x ≤ m) ∨ x ∈ rest2) ↔
          ((prev - (c : ℤ) ≤ x ∧ x ≤ prev) ∨ x ∈ m :: rest2) := by
        intro x
        constructor
        · rintro (⟨ha, hb⟩ | hm)
          · by_cases hxp : x ≤ prev
            · exact Or.inl ⟨by omega, hxp⟩
            · have hxm : x = m := by omega
              exact Or.inr (hxm ▸ List.mem_cons_self m rest2)
          · exact Or.inr (List.mem_cons_of_mem m hm)
        · rintro (⟨ha, hb⟩ | hm)
          · exact Or.inl ⟨by omega, by omega⟩
          · rcases List.mem_cons.mp hm with hx | hx
            · exact Or.inl ⟨by omega, by omega⟩
            · exact Or.inr hx
      have ih2 := ih m (c + 1) hpw2
      push_cast at ih2
      rw [heq, ih2]
      exact exists_congr fun v => by
        rw [hset v, hset (v - 1), hset (v - 2), hset (v + 1)]
    · have heq : scanRunsB rep prev (c + 1) (m :: rest2) =
          (if 3 ≤ c + 1 ∧ 1 ≤ rep - prev then true else scanRunsB rep m 1 rest2) := by
        simp [scanRunsB, hcons]
      rw [heq]
      by_cases hck : 3 ≤ c + 1 ∧ 1 ≤ rep - prev
      · rw [if_pos hck]
        constructor
        · intro _
          refine ⟨prev, Or.inl ⟨by omega, le_refl _⟩, Or.inl ⟨by omega, by omega⟩,
            Or.inl ⟨by omega, by omega⟩, ?_, hck.2⟩
          rintro (⟨_, hle⟩ | hmem)
          · omega
          · rcases List.mem_cons.mp hmem with hx | hx
            · omega
            · have := hmrest _ hx
              omega
        · intro _
          rfl
      · rw [if_neg hck]
        rw [show scanRunsB rep m 1 rest2 = scanRunsB rep m (0 + 1) rest2 from rfl,
          ih m 0 hpw2]
        constructor
        · rintro ⟨v, hv, hv1, hv2, hnv, hrep⟩
          have hvm : m ≤ v := by
            rcases hv with ⟨ha, hb⟩ | hm
            · omega
            · have := hmrest _ hm
              omega
          refine ⟨v, ?_, ?_, ?_, ?_, hrep⟩
          · rcases hv with ⟨ha, hb⟩ | hm
            · have : v = m := by omega
              exact Or.inr (this ▸ List.mem_cons_self m rest2)
            · exact Or.inr (List.mem_cons_of_mem m hm)
          · rcases hv1 with ⟨ha, hb⟩ | hm
            · have : v - 1 = m := by omega
              exact Or.inr (this ▸ List.mem_cons_self m rest2)
            · exact Or.inr (List.mem_cons_of_mem m hm)
          · rcases hv2 with ⟨ha, hb⟩ | hm
            · have : v - 2 = m := by omega
              exact Or.inr (this ▸ List.mem_cons_self m rest2)
            · exact Or.inr (List.mem_cons_of_mem m hm)
          · rintro (⟨ha, hb⟩ | hm)
            · omega
            · rcases List.mem_cons.mp hm with hx | hx
              · exact hnv (Or.inl ⟨by omega, by omega⟩)
              · exact hnv (Or.inr hx)
        · rintro ⟨v, hv, hv1, hv2, hnv, hrep⟩
          have hmem_lb : ∀ x ∈ m :: rest2, m ≤ x := by
            intro x hx
            rcases List.mem_cons.mp hx with h | h
            · omega
            · have := hmrest _ h
              omega
          by_cases hvI : v ≤ prev
          · exfalso
            have hv_int : prev - (c : ℤ) ≤ v := by
              rcases hv with ⟨ha, _⟩ | hm
              · exact ha
              · have := hmem_lb _ hm
                omega
            have hnvI : ¬(prev - (c : ℤ) ≤ v + 1 ∧ v + 1 ≤ prev) :=
              fun hcon => hnv (Or.inl hcon)
            have hveq : v = prev := by omega
            have hv2I : prev - (c : ℤ) ≤ v - 2 := by
              rcases hv2 with ⟨ha, _⟩ | hm
              · exact ha
              · have := hmem_lb _ hm
                omega
            exact hck ⟨by omega, by omega⟩
          · have hvm : m ≤ v := by
              rcases hv with ⟨_, hb⟩ | hm
              · omega
              · exact hmem_lb _ hm
            have hvmem : v = m ∨ v ∈ rest2 := by
              rcases hv with ⟨_, hb⟩ | hm
              · omega
              · exact List.mem_cons.mp hm
            have hv1mem : v - 1 = m ∨ v - 1 ∈ rest2 := by
              rcases hv1 with ⟨_, hb⟩ | hm
              · omega
              · exact List.mem_cons.mp hm
            have hvne : v ≠ m := by
              intro hvm2
              rcases hv1mem with h | h
              · omega
              · have := hmrest _ h
                omega
            have hv2mem : v - 2 = m ∨ v - 2 ∈ rest2 := by
              rcases hv2 with ⟨_, hb⟩ | hm
              · have hveqm : v = m := by
                  rcases hvmem with h | h
                  · exact h
                  · have := hmrest _ h
                    omega
                exact absurd hveqm hvne
              · exact List.mem_cons.mp hm
            refine ⟨v, ?_, ?_, ?_, ?_, hrep⟩
            · rcases hvmem with h | h
              · exact absurd h hvne
              · exact Or.inr h
            · rcases hv1mem with h | h
              · exact Or.inl (by omega)
              · exact Or.inr h
            · rcases hv2mem with h | h
              · exact Or.inl (by omega)
              · exact Or.inr h
            · rintro (hl | hm)
              · omega
              · exact hnv (Or.inr (List.mem_cons_of_mem m hm))

/-- The sorted distinct month list is strictly increasing. -/
theorem sortedMonths_lt_pairwise (tl : List Entry) (rd : ℤ) :
    List.Pairwise (· < ·) (sortedMonths tl rd) := by
  have hsorted : List.Pairwise (fun a b : ℤ => a ≤ b) (sortedMonths tl rd) :=
    List.sorted_insertionSort _ _
  have hnodup : (sortedMonths tl rd).Nodup :=
    (List.perm_insertionSort (fun a b : ℤ => a ≤ b) _).symm.nodup
      (List.nodup_dedup _)
  exact (hsorted.and hnodup).imp (fun h => lt_of_le_of_ne h.1 h.2)

/-- The pattern-break scan equals the maximal-run characterization: at least
4 distinct months, and some month `v` ending a maximal consecutive run of
length at least 3 (`v-2`, `v-1`, `v` present, `v+1` absent) at least one
month before the report month. -/
theorem break_iff_amended (tl : List Entry) (rd : ℤ) :
    break_in_monthly_pattern tl rd = true ↔ amendedMonthlyBreak tl rd := by
  unfold break_in_monthly_pattern amendedMonthlyBreak
  by_cases hlen : (sortedMonths tl rd).length < 4
  · rw [if_pos hlen]
    simp only [Bool.false_eq_true, false_iff, not_and]
    intro h4
    omega
  · rw [if_neg hlen]
    have hpw := sortedMonths_lt_pairwise tl rd
    rcases hM : sortedMonths tl rd with _ | ⟨m0, rest⟩
    · rw [hM] at hlen
      simp at hlen
    · rw [hM] at hpw hlen
      have hkey := scanRunsB_iff (monthIdxOfDate rd) rest m0 0 hpw
      change scanRunsB (monthIdxOfDate rd) m0 (0 + 1) rest = true ↔ _
      rw [hkey]
      have hmem : ∀ x : ℤ,
          ((m0 - ((0 : ℕ) : ℤ) ≤ x ∧ x ≤ m0) ∨ x ∈ rest) ↔ x ∈ m0 :: rest := by
        intro x
        constructor
        · rintro (⟨ha, hb⟩ | hm)
          · have : x = m0 := by omega
            exact this ▸ List.mem_cons_self m0 rest
          · exact List.mem_cons_of_mem m0 hm
        · intro hx
          rcases List.mem_cons.mp hx with h | h
          · exact Or.inl ⟨by omega, by omega⟩
          · exact Or.inr h
      constructor
      · rintro ⟨v, hv, hv1, hv2, hnv, hrep⟩
        refine ⟨by omega, v, (hmem (v - 2)).mp hv2, (hmem (v - 1)).mp hv1,
          (hmem v).mp hv, fun hc => hnv ((hmem (v + 1)).mpr hc), hrep⟩
      · rintro ⟨h4, v, hv2, hv1, hv, hnv, hrep⟩
        exact ⟨v, (hmem v).mpr hv, (hmem (v - 1)).mpr hv1, (hmem (v - 2)).mpr hv2,
          fun hc => hnv ((hmem (v + 1)).mp hc), hrep⟩

/-- C6 counterexample: with activity in months 2025-03 through 2025-06 and a
report date in June 2025 (4 distinct months), the months contain the run
3,4,5 — three or more consecutive months ending one full month before the
report month — so the claim as stated is satisfied; but the code returns
`false`, because the only maximal run (3,4,5,6) ends in the report month. -/
theorem C6_counterexample_nonmaximal_run :
    break_in_monthly_pattern c6linesB (daysFromCivil 2025 6 15 * 86400) = false ∧
    claimMonthlyBreak c6linesB (daysFromCivil 2025 6 15 * 86400) := by
  refine ⟨by decide, by decide, 24305, by decide, by decide, by decide, by decide⟩

/-- C6 amended: the rule returns `false` whenever fewer than 4 distinct
(year, month) pairs occur at or before the report date, and returns `true`
exactly when the sorted distinct months contain a maximal run of 3 or more
consecutive months (one whose final month is not followed by the next month)
ending at least one full month before the report month; activity in months
1,2,3,4 with none in 5,6 and a report date in month 6 yields `true`, while
activity in only 2 consecutive months yields `false`. -/
theorem C6_monthly_pattern_amended :
    (∀ (tl : List Entry) (rd : ℤ),
      break_in_monthly_pattern tl rd = true ↔ amendedMonthlyBreak tl rd) ∧
    break_in_monthly_pattern c6linesA (daysFromCivil 2025 6 15 * 86400) = true ∧
    break_in_monthly_pattern
      [ Entry.mk (daysFromCivil 2025 1 5 * 86400) "" 1
      , Entry.mk (daysFromCivil 2025 2 5 * 86400) "" 1 ]
      (daysFromCivil 2025 6 15 * 86400) = false := by
  exact ⟨break_iff_amended, by decide, by decide⟩

end Reviewer
